import Mathlib

/-
Verification development for the agent orchestration engine of this
repository (a TypeScript interactive coding agent).  Each section embeds
one component of the source as executable Lean definitions and proves the
properties of the specification against that embedding.

Conventions of the embedding:
* JavaScript numbers that hold token counts, timestamps and sizes are
  modelled as `Nat` (the source only ever adds and compares non-negative
  integers that stay far below 2^53, where JS arithmetic is exact).
* JavaScript truthiness of an optional string (`if (x)` for
  `x : string | null | undefined`) is `jsTruthy`: the value is present and
  non-empty.
* `Date` values carried only as opaque timestamps (`prunedAt`) are
  modelled by their presence (a `Bool`).
-/

/-! ## Token usage (src/src/client/llm_client.ts, class TokenUsage) -/

/-- Embeds `class TokenUsage` (llm_client.ts): the four additive counters. -/
structure TokenUsage where
  promptTokens : Nat
  completionTokens : Nat
  totalTokens : Nat
  cachedTokens : Nat
deriving DecidableEq, Repr

/-- Embeds `new TokenUsage()` — all counters default to 0. -/
def TokenUsage.zero : TokenUsage := ⟨0, 0, 0, 0⟩

/-- Embeds `TokenUsage.add`: componentwise sum, returning a new value. -/
def TokenUsage.add (a b : TokenUsage) : TokenUsage :=
  ⟨a.promptTokens + b.promptTokens,
   a.completionTokens + b.completionTokens,
   a.totalTokens + b.totalTokens,
   a.cachedTokens + b.cachedTokens⟩

/-- Componentwise order on usages ("non-decreasing in every component"). -/
def TokenUsage.le (a b : TokenUsage) : Prop :=
  a.promptTokens ≤ b.promptTokens ∧ a.completionTokens ≤ b.completionTokens ∧
  a.totalTokens ≤ b.totalTokens ∧ a.cachedTokens ≤ b.cachedTokens

/-- Embeds `ContextManager.addUsage` (manager.ts):
`this.totalUsage = this.totalUsage.add(usage)`. -/
def ctxAddUsage (totalUsage usage : TokenUsage) : TokenUsage :=
  totalUsage.add usage

/-! ## Token counting (src/src/utils/text.ts) -/

/-- Embeds `estimateTokens` / `countTokens` (text.ts):
`Math.max(1, Math.floor(text.length / 4))` (the model argument is unused). -/
def countTokens (text : String) : Nat :=
  max 1 (text.length / 4)

/-! ## Loop detector (src/src/context/loop_detector.ts) -/

/-- The `maxExactRepeats` constant of `LoopDetector`. -/
def maxExactRepeats : Nat := 3

/-- The `maxCycleLength` constant of `LoopDetector`. -/
def maxCycleLength : Nat := 3

/-- Embeds `history.slice(-n)` for `n ≤ history.length`: the last `n`
entries. -/
def lastN (h : List String) (n : Nat) : List String :=
  h.drop (h.length - n)

/-- Embeds `new Set(recent).size === 1` for a non-empty list: all entries
are equal to the first. -/
def allEqual (l : List String) : Bool :=
  match l with
  | [] => true
  | x :: xs => xs.all (fun y => y == x)

/-- One iteration body of the cycle loop of `checkForLoop`: the last
`2·L` signatures split into two identical halves. -/
def cycleAt (h : List String) (len : Nat) : Bool :=
  let recent := lastN h (len * 2)
  recent.take len == recent.drop len

/-- The `for (let cycleLen = 2; cycleLen <= maxL; cycleLen++)` loop of
`checkForLoop`, returning the first detected cycle message. -/
def findCycle (h : List String) (maxL : Nat) : Option String :=
  ((List.range' 2 (maxL + 1 - 2)).findSome? fun len =>
    if cycleAt h len then
      some ("Detected repeating cycle of length " ++ toString len)
    else none)

/-- Embeds `LoopDetector.checkForLoop` on the recorded history (most
recent entry last), following the control flow of the source: the `< 2` guard,
the exact-repeat check (guarded by `length ≥ maxExactRepeats`), then the
cycle scan guarded by `length ≥ maxCycleLength * 2`. -/
def checkForLoop (h : List String) : Option String :=
  if h.length < 2 then none
  else if maxExactRepeats ≤ h.length && allEqual (lastN h maxExactRepeats) then
    some "Same action repeated 3 times"
  else if maxCycleLength * 2 ≤ h.length then
    findCycle h (min maxCycleLength (h.length / 2))
  else none

/-! ## A small regular-expression engine

The approval engine (src/unnamed/part_005) screens shell commands with
JavaScript regular expressions.  `Re` is an abstract syntax for exactly
the constructs those patterns use; `reAccept` decides whether a pattern
matches a prefix of the input (which is what an anchored `RegExp.test`
does), and `reSearch` whether it matches anywhere (unanchored `test`).
`\s` is modelled by the ASCII whitespace characters. -/

inductive Re where
  | eps : Re
  | chr : Char → Re
  | cls : List Char → Re
  | ws : Re
  | dot : Re
  | seq : Re → Re → Re
  | alt : Re → Re → Re
  | star : Re → Re
  | eol : Re
deriving Repr

/-- Characters matched by `\s` (ASCII part of the JS class). -/
def wsChars : List Char :=
  [' ', '\t', '\n', '\x0d', Char.ofNat 0x0b, Char.ofNat 0x0c]

/-- Characters NOT matched by JS `.` (no `s` flag): line terminators. -/
def dotExcluded : List Char :=
  ['\n', '\x0d', Char.ofNat 0x2028, Char.ofNat 0x2029]

/-- Size of a pattern, used to compute a sufficient matching fuel. -/
def Re.size : Re → Nat
  | .eps => 1
  | .chr _ => 1
  | .cls _ => 1
  | .ws => 1
  | .dot => 1
  | .seq a b => a.size + b.size + 1
  | .alt a b => a.size + b.size + 1
  | .star a => a.size + 1
  | .eol => 1

/-- Backtracking matcher in continuation style.  `star` only iterates on
strict progress (standard removal of empty iterations, which does not
change the accepted language); the fuel bounds the recursion and is
chosen large enough in `reAccept` that it is never exhausted. -/
def matchR : Nat → Re → List Char → (List Char → Bool) → Bool
  | 0, _, _, _ => false
  | fuel + 1, re, s, k =>
    match re with
    | .eps => k s
    | .chr c =>
      match s with
      | [] => false
      | x :: xs => x == c && k xs
    | .cls l =>
      match s with
      | [] => false
      | x :: xs => l.contains x && k xs
    | .ws =>
      match s with
      | [] => false
      | x :: xs => wsChars.contains x && k xs
    | .dot =>
      match s with
      | [] => false
      | x :: xs => !(dotExcluded.contains x) && k xs
    | .seq a b => matchR fuel a s (fun s2 => matchR fuel b s2 k)
    | .alt a b => matchR fuel a s k || matchR fuel b s k
    | .star a =>
      matchR fuel a s
        (fun s2 => if s2.length < s.length then matchR fuel (.star a) s2 k else false) ||
      k s
    | .eol => s.isEmpty && k s

/-- Does `re` match some prefix of `s` (anchored at the start)? -/
def reAcceptChars (re : Re) (s : List Char) : Bool :=
  matchR ((re.size + 2) * (s.length + 2)) re s (fun _ => true)

/-- Matches `RegExp.test` for a pattern anchored with `^`. -/
def reAccept (re : Re) (s : String) : Bool :=
  reAcceptChars re s.data

/-- Helper for unanchored `RegExp.test`: try every start position. -/
def reSearchAux (re : Re) : List Char → Bool
  | [] => reAcceptChars re []
  | c :: rest => reAcceptChars re (c :: rest) || reSearchAux re rest

/-- Unanchored `RegExp.test`. -/
def reSearch (re : Re) (s : String) : Bool :=
  reSearchAux re s.data

/-- A literal string as a pattern. -/
def strRe (s : String) : Re :=
  s.data.foldr (fun c acc => Re.seq (Re.chr c) acc) Re.eps

/-- Sequence of a list of patterns. -/
def seqRe (l : List Re) : Re :=
  l.foldr Re.seq Re.eps

/-- Alternation of a non-empty list of patterns. -/
def altsRe : List Re → Re
  | [] => Re.eps
  | [r] => r
  | r :: rest => Re.alt r (altsRe rest)

/-- Alternation `(w1|w2|…)` over literal words. -/
def wordAlts (l : List String) : Re :=
  altsRe (l.map strRe)

/-- Pattern `\s+`. -/
def wsPlus : Re := Re.seq Re.ws (Re.star Re.ws)

/-- Pattern `\s*`. -/
def wsStar : Re := Re.star Re.ws

/-- Pattern `r?`. -/
def optRe (r : Re) : Re := Re.alt r Re.eps

/-- Pattern `.*`. -/
def dotStar : Re := Re.star Re.dot

/-- Pattern `(\s|$)`. -/
def wsOrEnd : Re := Re.alt Re.ws Re.eol

/-! ## Approval policy engine (src/unnamed/part_005) -/

/-- The left-brace character (kept out of string literals). -/
def lbraceChar : Char := Char.ofNat 0x7b

/-- The right-brace character (kept out of string literals). -/
def rbraceChar : Char := Char.ofNat 0x7d

/-- Embeds `DANGEROUS_PATTERNS` (part_005 lines 22–49), pattern by
pattern, in source order. -/
def DANGEROUS_PATTERNS : List Re :=
  [ -- /rm\s+(-rf?|--recursive)\s+[/~]/
    seqRe [strRe "rm", wsPlus,
           Re.alt (Re.seq (strRe "-r") (optRe (Re.chr 'f'))) (strRe "--recursive"),
           wsPlus, Re.cls ['/', '~']],
    -- /rm\s+-rf?\s+\*/
    seqRe [strRe "rm", wsPlus, strRe "-r", optRe (Re.chr 'f'), wsPlus, Re.chr '*'],
    -- /rmdir\s+[/~]/
    seqRe [strRe "rmdir", wsPlus, Re.cls ['/', '~']],
    -- /dd\s+if=/
    seqRe [strRe "dd", wsPlus, strRe "if="],
    -- /mkfs/
    strRe "mkfs",
    -- /fdisk/
    strRe "fdisk",
    -- /parted/
    strRe "parted",
    -- /shutdown/
    strRe "shutdown",
    -- /reboot/
    strRe "reboot",
    -- /halt/
    strRe "halt",
    -- /poweroff/
    strRe "poweroff",
    -- /init\s+[06]/
    seqRe [strRe "init", wsPlus, Re.cls ['0', '6']],
    -- /chmod\s+(-R\s+)?777\s+[/~]/
    seqRe [strRe "chmod", wsPlus, optRe (Re.seq (strRe "-R") wsPlus),
           strRe "777", wsPlus, Re.cls ['/', '~']],
    -- /chown\s+-R\s+.*\s+[/~]/
    seqRe [strRe "chown", wsPlus, strRe "-R", wsPlus, dotStar, wsPlus,
           Re.cls ['/', '~']],
    -- /nc\s+-l/
    seqRe [strRe "nc", wsPlus, strRe "-l"],
    -- /netcat\s+-l/
    seqRe [strRe "netcat", wsPlus, strRe "-l"],
    -- /curl\s+.*\|\s*(bash|sh)/
    seqRe [strRe "curl", wsPlus, dotStar, Re.chr '|', wsStar,
           Re.alt (strRe "bash") (strRe "sh")],
    -- /wget\s+.*\|\s*(bash|sh)/
    seqRe [strRe "wget", wsPlus, dotStar, Re.chr '|', wsStar,
           Re.alt (strRe "bash") (strRe "sh")],
    -- /:\(\)\s*\{\s*:\|:&\s*\}\s*;/  (fork bomb)
    seqRe [strRe ":()", wsStar, Re.chr lbraceChar, wsStar, strRe ":|:&",
           wsStar, Re.chr rbraceChar, wsStar, Re.chr ';'] ]

/-- Embeds `SAFE_PATTERNS` (part_005 lines 52–68); every pattern is
anchored with `^` in the source, so they are used with `reAccept`. -/
def SAFE_PATTERNS : List Re :=
  [ -- /^(ls|dir|pwd|cd|echo|cat|head|tail|less|more|wc)(\s|$)/
    Re.seq (wordAlts ["ls", "dir", "pwd", "cd", "echo", "cat", "head",
                      "tail", "less", "more", "wc"]) wsOrEnd,
    -- /^(find|locate|which|whereis|file|stat)(\s|$)/
    Re.seq (wordAlts ["find", "locate", "which", "whereis", "file", "stat"]) wsOrEnd,
    -- /^git\s+(status|log|diff|show|branch|remote|tag)(\s|$)/
    seqRe [strRe "git", wsPlus,
           wordAlts ["status", "log", "diff", "show", "branch", "remote", "tag"],
           wsOrEnd],
    -- /^(npm|yarn|pnpm)\s+(list|ls|outdated)(\s|$)/
    seqRe [wordAlts ["npm", "yarn", "pnpm"], wsPlus,
           wordAlts ["list", "ls", "outdated"], wsOrEnd],
    -- /^pip\s+(list|show|freeze)(\s|$)/
    seqRe [strRe "pip", wsPlus, wordAlts ["list", "show", "freeze"], wsOrEnd],
    -- /^cargo\s+(tree|search)(\s|$)/
    seqRe [strRe "cargo", wsPlus, wordAlts ["tree", "search"], wsOrEnd],
    -- /^(grep|awk|sed|cut|sort|uniq|tr|diff|comm)(\s|$)/
    Re.seq (wordAlts ["grep", "awk", "sed", "cut", "sort", "uniq", "tr",
                      "diff", "comm"]) wsOrEnd,
    -- /^(date|cal|uptime|whoami|id|groups|hostname|uname)(\s|$)/
    Re.seq (wordAlts ["date", "cal", "uptime", "whoami", "id", "groups",
                      "hostname", "uname"]) wsOrEnd,
    -- /^(env|printenv|set)$/
    Re.seq (wordAlts ["env", "printenv", "set"]) Re.eol,
    -- /^(ps|top|htop|pgrep)(\s|$)/
    Re.seq (wordAlts ["ps", "top", "htop", "pgrep"]) wsOrEnd ]

/-- Embeds `isDangerousCommand` (part_005): some dangerous pattern
matches somewhere in the command. -/
def isDangerousCommand (command : String) : Bool :=
  DANGEROUS_PATTERNS.any (fun p => reSearch p command)

/-- Embeds `isSafeCommand` (part_005): some safe pattern matches at the
start of the command. -/
def isSafeCommand (command : String) : Bool :=
  SAFE_PATTERNS.any (fun p => reAccept p command)

/-- Embeds `enum ApprovalPolicy` (main.ts lines 452–459). -/
inductive ApprovalPolicy where
  | onRequest
  | onFailure
  | auto
  | autoEdit
  | never
  | yolo
deriving DecidableEq, Repr

/-- Embeds `enum ApprovalDecision` (part_005). -/
inductive ApprovalDecision where
  | approved
  | rejected
  | needsConfirmation
deriving DecidableEq, Repr

/-- Tool parameters; the registry only threads them through, so an
association list of string pairs stands in for `Record<string, any>`. -/
def ToolParams : Type := List (String × String)

instance : DecidableEq ToolParams := by
  unfold ToolParams
  infer_instance

/-- Embeds `class ApprovalContext` (part_005): `command` is
`string | null | undefined` and is therefore an `Option`. -/
structure ApprovalContext where
  toolName : String
  params : ToolParams
  isMutating : Bool
  affectedPaths : List String
  command : Option String
  isDangerous : Bool

/-- JS truthiness of an optional string: present and non-empty. -/
def jsTruthy : Option String → Bool
  | some s => s != ""
  | none => false

/-- Embeds `ApprovalManager.assessCommandSafety` (part_005 lines
102–137), clause for clause and in source order: the `yolo` check comes
first, before the dangerous-pattern screen. -/
def assessCommandSafety (policy : ApprovalPolicy) (command : String) : ApprovalDecision :=
  if policy = .yolo then .approved
  else if isDangerousCommand command then .rejected
  else if policy = .never then
    (if isSafeCommand command then .approved else .rejected)
  else if policy = .auto ∨ policy = .onFailure then .approved
  else if policy = .autoEdit then
    (if isSafeCommand command then .approved else .needsConfirmation)
  else if isSafeCommand command then .approved
  else .needsConfirmation

/-- Split a character list on `/` (the segments of `p.split("/")`),
written with structural recursion so the kernel can evaluate it. -/
def splitSegsAux : List Char → List Char → List (List Char)
  | [], acc => [acc.reverse]
  | c :: rest, acc =>
    if c = '/' then acc.reverse :: splitSegsAux rest []
    else splitSegsAux rest (c :: acc)

/-- The node:path `relative` function restricted to the normalized absolute paths
the approval manager receives: split on `/`, drop the common prefix,
climb with `..` segments, join with `/`. -/
def splitPath (p : String) : List String :=
  ((splitSegsAux p.data []).map (fun l => String.mk l)).filter (fun s => s ≠ "")

/-- Strip the longest common prefix of two segment lists. -/
def dropCommonPfx : List String → List String → List String × List String
  | a :: as, b :: bs => if a = b then dropCommonPfx as bs else (a :: as, b :: bs)
  | as, bs => (as, bs)

/-- Embeds `relative(fromP, toP)` of node:path on normalized absolute paths. -/
def pathRelative (fromP toP : String) : String :=
  let rest := dropCommonPfx (splitPath fromP) (splitPath toP)
  String.intercalate "/" (List.replicate rest.1.length ".." ++ rest.2)

/-- Embeds `s.startsWith(pre)`, written over the character lists so the kernel
can evaluate it. -/
def strStartsWith (s pre : String) : Bool :=
  s.data.take pre.data.length == pre.data

/-- The escape test of `checkApproval`:
`relative(this.cwd, path).startsWith("..")`. -/
def escapesCwd (cwd path : String) : Bool :=
  strStartsWith (pathRelative cwd path) ".."

/-- The tail of `checkApproval` (part_005 lines 151–169): the
affected-path loop, then the `isDangerous` escalation, then the default. -/
def checkApprovalPaths (policy : ApprovalPolicy) (cwd : String)
    (ctx : ApprovalContext) : ApprovalDecision :=
  if ctx.affectedPaths.any (fun p => escapesCwd cwd p) then .needsConfirmation
  else if ctx.isDangerous then
    (if policy = .yolo then .approved else .needsConfirmation)
  else .approved

/-- Embeds `ApprovalManager.checkApproval` (part_005 lines 139–170).
A truthy `command` runs the command classifier and returns its verdict
unless that verdict is NEEDS_CONFIRMATION; only then (or without a
command) are the affected paths and the `isDangerous` flag consulted. -/
def checkApproval (policy : ApprovalPolicy) (cwd : String)
    (ctx : ApprovalContext) : ApprovalDecision :=
  if ctx.isMutating = false then .approved
  else
    match ctx.command with
    | some c =>
      if c = "" then checkApprovalPaths policy cwd ctx
      else
        let decision := assessCommandSafety policy c
        if decision ≠ .needsConfirmation then decision
        else checkApprovalPaths policy cwd ctx
    | none => checkApprovalPaths policy cwd ctx

/-! ## Context manager pruning (src/src/context/manager.ts) -/

/-- Embeds `class MessageItem` (manager.ts).  `toolCalls` holds the wire
records (opaque here), `tokenCount` is `number | null | undefined`, and
`prunedAt : Bool` models whether the optional timestamp is set. -/
structure MessageItem where
  role : String
  content : String
  toolCallId : Option String
  toolCalls : List String
  tokenCount : Option Nat
  prunedAt : Bool
deriving DecidableEq, Repr, Inhabited

/-- The constant `ContextManager.PRUNE_PROTECT_TOKENS`. -/
def PRUNE_PROTECT_TOKENS : Nat := 40000

/-- The constant `ContextManager.PRUNE_MINIMUM_TOKENS`. -/
def PRUNE_MINIMUM_TOKENS : Nat := 20000

/-- The messages examined by the pruning scan:
`msg.role === "tool" && msg.toolCallId` (truthy id). -/
def isCountedToolMsg (m : MessageItem) : Bool :=
  m.role == "tool" && jsTruthy m.toolCallId

/-- Embeds `msg.tokenCount || countTokens(msg.content, …)`: a zero or absent
stored count falls back to recounting. -/
def msgTokens (m : MessageItem) : Nat :=
  match m.tokenCount with
  | some n => if n = 0 then countTokens m.content else n
  | none => countTokens m.content

/-- The replacement text installed by pruning. -/
def prunedContent : String := "[Old tool result content cleared]"

/-- The mutation applied to each pruned message: clear the content,
recount its tokens, stamp `prunedAt`. -/
def pruneMsg (m : MessageItem) : MessageItem :=
  { m with content := prunedContent,
           tokenCount := some (countTokens prunedContent),
           prunedAt := true }

/-- The newest-first scan of `pruneToolOutputs` (manager.ts lines
197–213) on the REVERSED message list, carrying the running total.
Returns (prunedTokens, number of candidates, the scanned list with every
candidate replaced by its pruned form). A previously pruned tool message
stops the scan, leaving everything from it on untouched. -/
def pruneScan : List MessageItem → Nat → Nat × Nat × List MessageItem
  | [], _ => (0, 0, [])
  | m :: rest, total =>
    if isCountedToolMsg m then
      if m.prunedAt then (0, 0, m :: rest)
      else
        let tks := msgTokens m
        let r := pruneScan rest (total + tks)
        if PRUNE_PROTECT_TOKENS < total + tks then
          (r.1 + tks, r.2.1 + 1, pruneMsg m :: r.2.2)
        else (r.1, r.2.1, m :: r.2.2)
    else
      let r := pruneScan rest total
      (r.1, r.2.1, m :: r.2.2)

/-- Embeds `this.messages.filter((msg) => msg.role === "user").length`. -/
def userMessageCount (msgs : List MessageItem) : Nat :=
  (msgs.filter (fun m => m.role == "user")).length

/-- Embeds `ContextManager.pruneToolOutputs` (manager.ts lines 184–229)
on the stored message list (oldest first).  Returns the pruned count and
the updated message list. -/
def pruneToolOutputs (msgs : List MessageItem) : Nat × List MessageItem :=
  if userMessageCount msgs < 2 then (0, msgs)
  else
    let r := pruneScan msgs.reverse 0
    if r.1 < PRUNE_MINIMUM_TOKENS then (0, msgs)
    else (r.2.1, r.2.2.reverse)

/-! Declarative description of the scan, used to state the pruning
property of the specification: positions are indices into the reversed (newest-first)
list. -/

/-- No previously pruned tool message occurs at or before position `p`
of the newest-first list (the scan has not stopped yet). -/
def scanRegionOk (r : List MessageItem) (p : Nat) : Bool :=
  ((r.take (p + 1)).filter isCountedToolMsg).all (fun m => !m.prunedAt)

/-- Tokens of the tool messages at positions `≤ p` of the newest-first
list: the protected-tail accumulator of the spec. -/
def accumTokens (r : List MessageItem) (p : Nat) : Nat :=
  (((r.take (p + 1)).filter isCountedToolMsg).map msgTokens).sum

/-- The candidate predicate of the specification: position `p` (in the
newest-first list) holds an unstopped tool message whose accumulated
tokens (started from `t`) exceed the protected 40,000-token tail. -/
def specCand (r : List MessageItem) (t p : Nat) : Bool :=
  isCountedToolMsg (r.getD p default) && scanRegionOk r p &&
  decide (PRUNE_PROTECT_TOKENS < t + accumTokens r p)

/-- Total tokens of all candidate positions. -/
def specTokens (r : List MessageItem) (t : Nat) : Nat :=
  ((List.range r.length).map
    (fun p => if specCand r t p then msgTokens (r.getD p default) else 0)).sum

/-- Number of candidate positions. -/
def specCount (r : List MessageItem) (t : Nat) : Nat :=
  ((List.range r.length).map
    (fun p => if specCand r t p then 1 else 0)).sum

/-- The newest-first list with exactly the candidates pruned. -/
def specMap (r : List MessageItem) (t : Nat) : List MessageItem :=
  (List.range r.length).map
    (fun p => if specCand r t p then pruneMsg (r.getD p default) else r.getD p default)

/-! ## Tool results (src/src/tools/base.ts) -/

/-- Embeds `class ToolResult` restricted to the fields the verified
claims mention (metadata, diff, exit code are dropped). -/
structure ToolResult where
  success : Bool
  output : String
  error : Option String
deriving DecidableEq, Repr

/-- Embeds `ToolResult.errorResult(error)` with its default empty output. -/
def errorResult (e : String) : ToolResult := ⟨false, "", some e⟩

/-- Embeds `ToolResult.successResult(output)`. -/
def successResult (o : String) : ToolResult := ⟨true, o, none⟩

/-! ## Sub-agent tool (src/unnamed/part_000, class SubagentTool) -/

/-- The agent events `SubagentTool.execute` inspects
(src/unnamed/part_004 `AgentEventType`); `otherEv` stands for every kind
the sub-agent loop ignores. -/
inductive AgEv where
  | toolCallStart (name : String)
  | textComplete (content : String)
  | agentEnd (response : Option String)
  | agentError (err : Option String)
  | otherEv
deriving DecidableEq, Repr

/-- The mutable locals of `SubagentTool.execute`. -/
structure SubState where
  toolCalls : List String
  finalResponse : Option String
  errorMsg : Option String
  terminateReason : String
deriving DecidableEq, Repr

/-- Their initial values (`[]`, `null`, `null`, `"goal"`). -/
def initialSubState : SubState := ⟨[], none, none, "goal"⟩

/-- Embeds `x || null` on an optional string: an empty string collapses to null. -/
def jsOrNone : Option String → Option String
  | some s => if s = "" then none else some s
  | none => none

/-- Embeds `x || d` on an optional string: absent or empty falls back to `d`. -/
def jsOrDefault (o : Option String) (d : String) : String :=
  match o with
  | some s => if s = "" then d else s
  | none => d

/-- Embeds the `for await (const event of agent.run(prompt))` loop of
`SubagentTool.execute` (part_000 lines 89–110).  Each event carries the
`Date.now()` value observed at the top of its iteration; exceeding the
deadline breaks with termination "timeout", an AGENT_ERROR breaks with
termination "error". -/
def subLoop (deadline : Nat) : List (Nat × AgEv) → SubState → SubState
  | [], st => st
  | (now, ev) :: rest, st =>
    if deadline < now then
      { st with terminateReason := "timeout",
                finalResponse := some "Sub-agent timed out" }
    else
      match ev with
      | .toolCallStart n => subLoop deadline rest { st with toolCalls := st.toolCalls ++ [n] }
      | .textComplete c => subLoop deadline rest { st with finalResponse := some c }
      | .agentEnd r =>
        subLoop deadline rest
          (if st.finalResponse = none then { st with finalResponse := jsOrNone r } else st)
      | .agentError e =>
        let msg := jsOrDefault e "Unknown"
        { st with terminateReason := "error", errorMsg := some msg,
                  finalResponse := some ("Sub-agent error: " ++ msg) }
      | .otherEv => subLoop deadline rest st

/-- Embeds `this.definition.timeoutSeconds || 600`. -/
def effTimeout (o : Option Nat) : Nat :=
  match o with
  | some n => if n = 0 then 600 else n
  | none => 600

/-- The state after the run: either the outer `catch` (initialization
threw) or the event loop with `deadline = Date.now() + timeout·1000`. -/
def subRunState (timeoutSeconds now0 : Nat)
    (outcome : Except String (List (Nat × AgEv))) : SubState :=
  match outcome with
  | .error e =>
    { initialSubState with terminateReason := "error", errorMsg := some e,
                           finalResponse := some ("Sub-agent failed: " ++ e) }
  | .ok events => subLoop (now0 + timeoutSeconds * 1000) events initialSubState

/-- A single-quote character, for the result blob. -/
def sqChar : String := String.singleton (Char.ofNat 39)

/-- The summary text blob built at the end of `SubagentTool.execute`
(part_000 lines 120–126). -/
def subBlob (name : String) (st : SubState) : String :=
  "Sub-agent " ++ sqChar ++ name ++ sqChar ++ " completed.\nTermination: " ++
  st.terminateReason ++ "\nTools called: " ++
  (if st.toolCalls.isEmpty then "None" else String.intercalate ", " st.toolCalls) ++
  "\n\nResult:\n" ++ jsOrDefault st.finalResponse "No response" ++ "\n"

/-- Embeds `SubagentTool.execute` (part_000 lines 46–133): the empty-goal
guard, the run, and the final `if (error)` choice between an error result
and a success result, both carrying the blob. -/
def subagentExecute (name goal : String) (timeoutSeconds : Option Nat)
    (now0 : Nat) (outcome : Except String (List (Nat × AgEv))) : ToolResult :=
  if goal = "" then errorResult "No goal specified for sub-agent"
  else
    let st := subRunState (effTimeout timeoutSeconds) now0 outcome
    let blob := subBlob name st
    if jsTruthy st.errorMsg then errorResult blob else successResult blob

/-! ## Tool registry invocation pipeline (src/src/tools/registry.ts) -/

/-- Embeds `class ToolConfirmation` (base.ts) restricted to the fields
`ToolRegistry.invoke` reads. -/
structure ToolConfirmation where
  affectedPaths : List String
  command : Option String
  isDangerous : Bool

/-- A registered tool as `invoke` sees it: its validation, mutability and
confirmation hooks and its executor (an `Except.error` models a thrown
exception). -/
structure RegTool where
  validateParams : ToolParams → List String
  isMutating : ToolParams → Bool
  getConfirmation : ToolParams → String → Option ToolConfirmation
  execute : ToolParams → String → Except String ToolResult

/-- Embeds `class ApprovalManager` state: policy, cwd and the optional
confirmation callback. -/
structure ApprovalManager where
  approvalPolicy : ApprovalPolicy
  cwd : String
  confirmationCallback : Option (ToolConfirmation → Bool)

/-- Embeds `ApprovalManager.requestConfirmation`: the callback when
registered, otherwise `true`. -/
def requestConfirmation (am : ApprovalManager) (conf : ToolConfirmation) : Bool :=
  match am.confirmationCallback with
  | some f => f conf
  | none => true

/-- The hook and execution events observable during one `invoke` call. -/
inductive HookEv where
  | beforeTool (name : String) (params : ToolParams)
  | execStep (name : String)
  | afterTool (name : String) (params : ToolParams) (res : ToolResult)
deriving DecidableEq

/-- The approval gate inside `invoke` (registry.ts lines 127–156):
`some r` means the invocation is stopped with result `r` before the tool
executes. -/
def approvalGate (tool : RegTool) (name : String) (params : ToolParams)
    (cwd : String) (approval : Option ApprovalManager) : Option ToolResult :=
  match approval with
  | some am =>
    match tool.getConfirmation params cwd with
    | some conf =>
      let ctx : ApprovalContext :=
        ⟨name, params, tool.isMutating params, conf.affectedPaths,
         conf.command, conf.isDangerous⟩
      match checkApproval am.approvalPolicy am.cwd ctx with
      | .rejected => some (errorResult "Operation rejected by safety policy")
      | .needsConfirmation =>
        if requestConfirmation am conf then none
        else some (errorResult "User rejected the operation")
      | .approved => none
    | none => none
  | none => none

/-- Embeds `ToolRegistry.invoke` (registry.ts lines 92–172), returning
the trace of hook/execution events next to the final result.  The hook
system triggers never throw (they catch their own errors), and the
confirmation callback is modelled as total. -/
def invoke (getTool : String → Option RegTool) (name : String)
    (params : ToolParams) (cwd : String)
    (approval : Option ApprovalManager) : List HookEv × ToolResult :=
  match getTool name with
  | none =>
    let r := errorResult ("Unknown tool: " ++ name)
    ([.afterTool name params r], r)
  | some tool =>
    let errs := tool.validateParams params
    if errs.isEmpty = false then
      let r := errorResult ("Invalid parameters: " ++ String.intercalate "; " errs)
      ([.afterTool name params r], r)
    else
      match approvalGate tool name params cwd approval with
      | some r => ([.beforeTool name params, .afterTool name params r], r)
      | none =>
        match tool.execute params cwd with
        | .ok r => ([.beforeTool name params, .execStep name, .afterTool name params r], r)
        | .error e =>
          let r := errorResult ("Internal error: " ++ e)
          ([.beforeTool name params, .execStep name, .afterTool name params r], r)

/-! ## LLM client (src/src/client/llm_client.ts) -/

/-- A JSON value, for the parsed tool-call arguments. -/
inductive Json where
  | null : Json
  | bool (b : Bool) : Json
  | num (n : Int) : Json
  | str (s : String) : Json
  | arr (items : List Json) : Json
  | obj (fields : List (String × Json)) : Json

/-- Embeds `parseToolCallArguments` (llm_client.ts lines 340–352),
parameterized by the behaviour of `JSON.parse` (`none` models a thrown
parse error).  A falsy (empty) argument string returns `{}` before any
parsing is attempted. -/
def parseToolCallArguments (jsonParse : String → Option Json)
    (argumentsStr : String) : Json :=
  if argumentsStr = "" then Json.obj []
  else
    match jsonParse argumentsStr with
    | some v => v
    | none => Json.obj [("raw_arguments", Json.str argumentsStr)]

/-- One assembled per-index tool-call record of the streaming state
machine (`toolCalls` map of `streamResponse`). -/
structure AsmToolCall where
  id : String
  name : String
  arguments : String

/-- The TOOL_CALL_COMPLETE events of the end-of-stream flush. -/
inductive EmitEv where
  | toolCallComplete (id : String) (name : String) (args : Json)

/-- Embeds the end-of-stream flush of `streamResponse` (llm_client.ts
lines 183–196): each assembled record is emitted with its parsed
arguments (`tc.arguments || ""` is the identity on strings). -/
def flushToolCalls (jsonParse : String → Option Json)
    (tcs : List AsmToolCall) : List EmitEv :=
  tcs.map (fun tc =>
    .toolCallComplete tc.id tc.name (parseToolCallArguments jsonParse tc.arguments))

/-! ### Retry loop of `chatCompletion` (llm_client.ts lines 73–101) -/

/-- Stream events as far as the retry loop distinguishes them; only
`errorEv` is ever produced by the loop itself, never by
`streamResponse`. -/
inductive SEv where
  | textDelta (s : String)
  | toolStart
  | toolDelta
  | toolComplete
  | msgComplete
  | errorEv (msg : String)
deriving DecidableEq, Repr

/-- Is this a `StreamEventType.ERROR` event? -/
def isErrEv : SEv → Bool
  | .errorEv _ => true
  | _ => false

/-- The error object a failed API call throws: its optional `status`,
optional `type` and message. -/
structure ApiErr where
  status : Option Nat
  etype : Option String
  msg : String
deriving DecidableEq, Repr

/-- Embeds `error.status === 429 || error.type === "connection_error"` — the
two retryable conditions of the loop. -/
def retryableErr (e : ApiErr) : Bool :=
  e.status = some 429 || e.etype = some "connection_error"

/-- One attempt of the wrapped call: either a completed stream with its
events, or a throw after yielding some partial events. -/
inductive Attempt where
  | ok (events : List SEv)
  | fail (partialEvents : List SEv) (err : ApiErr)

/-- What the generator produces: stream events interleaved with the
`setTimeout` back-off delays (in seconds). -/
inductive Step where
  | delaySec (n : Nat)
  | emit (e : SEv)
deriving DecidableEq, Repr

/-- The constant `this.maxRetries`. -/
def maxRetries : Nat := 3

/-- Embeds the `for (let attempt = 0; attempt <= this.maxRetries; …)`
loop of `chatCompletion`: success returns the events of the attempt; a
retryable failure with `attempt < maxRetries` waits `2^attempt` seconds
and retries; anything else yields one ERROR event and returns.  The fuel
equals the remaining loop iterations and is never exhausted. -/
def chatLoop (attempts : Nat → Attempt) : Nat → Nat → List Step
  | 0, _ => []
  | fuel + 1, a =>
    match attempts a with
    | .ok evs => evs.map Step.emit
    | .fail part e =>
      if retryableErr e && decide (a < maxRetries) then
        part.map Step.emit ++ Step.delaySec (2 ^ a) :: chatLoop attempts fuel (a + 1)
      else
        part.map Step.emit ++ [Step.emit (.errorEv ("API error: " ++ e.msg))]

/-- Embeds the retry behaviour of `LLMClient.chatCompletion`, with the
attempt outcomes supplied as an oracle. -/
def chatCompletion (attempts : Nat → Attempt) : List Step :=
  chatLoop attempts (maxRetries + 1) 0

/-- The back-off delays of a run, in order. -/
def delaysOf (out : List Step) : List Nat :=
  out.filterMap (fun s =>
    match s with
    | .delaySec n => some n
    | .emit _ => none)

/-- Number of ERROR stream events in a run. -/
def errCount (out : List Step) : Nat :=
  out.countP (fun s =>
    match s with
    | .emit e => isErrEv e
    | .delaySec _ => false)

/-- Nothing is yielded after an ERROR event. -/
def errLastOnly : List Step → Bool
  | [] => true
  | .emit (.errorEv _) :: rest => rest.isEmpty
  | _ :: rest => errLastOnly rest

/-- An attempt produced no ERROR-typed events (true of every
`streamResponse` run). -/
def noErrEvents : Attempt → Bool
  | .ok evs => evs.all (fun e => !isErrEv e)
  | .fail part _ => part.all (fun e => !isErrEv e)

/-- Attempt `k` is the terminal failure: every earlier attempt failed
retryably, and attempt `k` fails non-retryably or is the last (fourth)
attempt. -/
def terminalFailAt (attempts : Nat → Attempt) (k : Nat) : Prop :=
  k ≤ maxRetries ∧
  (∀ i, i < k → ∃ p e, attempts i = .fail p e ∧ retryableErr e = true) ∧
  (∃ p e, attempts k = .fail p e ∧ (retryableErr e = false ∨ k = maxRetries))

/-! ## Theorems -/

/-- Transitivity of the componentwise usage order. -/
theorem TokenUsage.le_trans {a b c : TokenUsage} (h1 : TokenUsage.le a b)
    (h2 : TokenUsage.le b c) : TokenUsage.le a c :=
  ⟨Nat.le_trans h1.1 h2.1, Nat.le_trans h1.2.1 h2.2.1,
   Nat.le_trans h1.2.2.1 h2.2.2.1, Nat.le_trans h1.2.2.2 h2.2.2.2⟩

/-- C10: `TokenUsage.add` is commutative with the all-zero usage as
identity, and the accumulated `totalUsage` is non-decreasing in every
component under repeated `addUsage` calls. -/
theorem tokenUsage_add_comm_id_mono :
    (∀ a b : TokenUsage, a.add b = b.add a) ∧
    (∀ a : TokenUsage, a.add TokenUsage.zero = a) ∧
    (∀ total u : TokenUsage, TokenUsage.le total (ctxAddUsage total u)) ∧
    (∀ (us : List TokenUsage) (total : TokenUsage),
      TokenUsage.le total (us.foldl ctxAddUsage total)) := by
  have hstep : ∀ total u : TokenUsage, TokenUsage.le total (ctxAddUsage total u) := by
    intro total u
    exact ⟨Nat.le_add_right _ _, Nat.le_add_right _ _,
           Nat.le_add_right _ _, Nat.le_add_right _ _⟩
  refine ⟨?_, ?_, hstep, ?_⟩
  · intro a b
    cases a
    cases b
    simp [TokenUsage.add, Nat.add_comm]
  · intro a
    cases a
    simp [TokenUsage.add, TokenUsage.zero]
  · intro us
    induction us with
    | nil => intro total; exact ⟨Nat.le_refl _, Nat.le_refl _, Nat.le_refl _, Nat.le_refl _⟩
    | cons u rest ih =>
      intro total
      exact TokenUsage.le_trans (hstep total u) (ih (ctxAddUsage total u))

/-- C9: with fewer than two user messages, pruning is a no-op: it
returns 0 and the stored messages are returned completely unchanged. -/
theorem pruneToolOutputs_few_users (msgs : List MessageItem)
    (h : userMessageCount msgs < 2) : pruneToolOutputs msgs = (0, msgs) := by
  unfold pruneToolOutputs
  rw [if_pos h]

/-- Witness for C9 at a message list holding 100,000 tokens of tool
output and a single user message. -/
theorem pruneToolOutputs_few_users_witness :
    userMessageCount [⟨"user", "hi", none, [], some 1, false⟩,
                      ⟨"tool", "big", some "c1", [], some 100000, false⟩] < 2 ∧
    pruneToolOutputs [⟨"user", "hi", none, [], some 1, false⟩,
                      ⟨"tool", "big", some "c1", [], some 100000, false⟩] =
      (0, [⟨"user", "hi", none, [], some 1, false⟩,
           ⟨"tool", "big", some "c1", [], some 100000, false⟩]) :=
  ⟨by decide, pruneToolOutputs_few_users _ (by decide)⟩

/-- C1 counterexample: `rm -rf /` matches a dangerous pattern, yet under
policy `yolo` `checkApproval` APPROVES it — `assessCommandSafety` tests
the yolo policy before the dangerous-pattern screen. -/
theorem yolo_dangerous_approved_cex :
    isDangerousCommand "rm -rf /" = true ∧
    checkApproval .yolo "/home/u"
      ⟨"shell", [], true, [], some "rm -rf /", false⟩ = .approved := by
  exact ⟨by decide, by decide⟩

/-- C1 (amended): for every policy OTHER than `yolo`, a mutating context
whose (truthy) command matches a dangerous pattern is REJECTED; under
`yolo` the command classifier approves unconditionally, dangerous or
not. -/
theorem dangerous_command_rejected (p : ApprovalPolicy) (cwd : String)
    (ctx : ApprovalContext) (c : String)
    (hm : ctx.isMutating = true) (hc : ctx.command = some c) (hne : c ≠ "") :
    (isDangerousCommand c = true → p ≠ .yolo →
      checkApproval p cwd ctx = .rejected) ∧
    checkApproval .yolo cwd ctx = .approved := by
  constructor
  · intro hd hp
    unfold checkApproval
    rw [hm]
    simp only [hc]
    rw [if_neg hne]
    have hass : assessCommandSafety p c = .rejected := by
      unfold assessCommandSafety
      rw [if_neg hp, if_pos hd]
    rw [hass]
    simp
  · unfold checkApproval
    rw [hm]
    simp only [hc]
    rw [if_neg hne]
    have hass : assessCommandSafety .yolo c = .approved := by
      unfold assessCommandSafety
      rw [if_pos rfl]
    rw [hass]
    simp

/-- Witness for C1 (amended) at policy `on-request` and command
`rm -rf /`. -/
theorem dangerous_command_rejected_witness :
    isDangerousCommand "rm -rf /" = true ∧
    checkApproval .onRequest "/home/u"
      ⟨"shell", [], true, [], some "rm -rf /", false⟩ = .rejected := by
  have h := dangerous_command_rejected .onRequest "/home/u"
    ⟨"shell", [], true, [], some "rm -rf /", false⟩ "rm -rf /" rfl rfl (by decide)
  exact ⟨by decide, h.1 (by decide) (by decide)⟩

/-- C3 counterexample: the command classifier APPROVES `ls -la` under
`on-request`, and `checkApproval` then returns early — the escaping
affected path `/tmp/foo` (cwd `/home/u`) is never examined, so the
decision is APPROVED, not NEEDS_CONFIRMATION. -/
theorem classifier_approved_skips_paths_cex :
    assessCommandSafety .onRequest "ls -la" = .approved ∧
    escapesCwd "/home/u" "/tmp/foo" = true ∧
    checkApproval .onRequest "/home/u"
      ⟨"shell", [], true, ["/tmp/foo"], some "ls -la", false⟩ = .approved := by
  exact ⟨by decide, by decide, by decide⟩

/-- C3 (amended): the path-escape escalation applies exactly when the
command classifier was not consulted (no truthy command) or returned
NEEDS_CONFIRMATION; in those cases an affected path escaping the cwd
forces NEEDS_CONFIRMATION. -/
theorem path_escape_needs_confirmation (p : ApprovalPolicy) (cwd : String)
    (ctx : ApprovalContext)
    (hm : ctx.isMutating = true)
    (hcmd : ctx.command = none ∨ ctx.command = some "" ∨
      ∃ c, ctx.command = some c ∧ assessCommandSafety p c = .needsConfirmation)
    (hpath : ∃ path ∈ ctx.affectedPaths, escapesCwd cwd path = true) :
    checkApproval p cwd ctx = .needsConfirmation := by
  have hpaths : checkApprovalPaths p cwd ctx = .needsConfirmation := by
    unfold checkApprovalPaths
    rw [if_pos]
    obtain ⟨path, hmem, hesc⟩ := hpath
    exact List.any_eq_true.mpr ⟨path, hmem, hesc⟩
  unfold checkApproval
  rw [hm]
  rcases hcmd with hnone | hempty | ⟨c, hc, hass⟩
  · simp only [hnone]
    simpa using hpaths
  · simp only [hempty]
    simpa using hpaths
  · simp only [hc]
    by_cases hce : c = ""
    · rw [if_pos hce]
      simpa using hpaths
    · rw [if_neg hce]
      rw [hass]
      simpa using hpaths

/-- Witness for C3 (amended): policy `auto-edit`, no command, affected
path `/tmp/foo`, cwd `/home/u` — the decision is NEEDS_CONFIRMATION. -/
theorem path_escape_needs_confirmation_witness :
    checkApproval .autoEdit "/home/u"
      ⟨"edit_file", [], true, ["/tmp/foo"], none, false⟩ = .needsConfirmation :=
  path_escape_needs_confirmation .autoEdit "/home/u"
    ⟨"edit_file", [], true, ["/tmp/foo"], none, false⟩ rfl (Or.inl rfl)
    ⟨"/tmp/foo", by decide⟩

/-- C7 counterexample: a tool call whose accumulated argument string is
EMPTY is flushed with arguments `{}` — the falsy-string guard returns
before parsing — and `{}` is not the wrapper object
`{raw_arguments: ""}` the claim demands. -/
theorem parse_empty_args_cex :
    flushToolCalls (fun _ => none) [⟨"call_1", "t", ""⟩] =
      [EmitEv.toolCallComplete "call_1" "t" (Json.obj [])] ∧
    Json.obj [] ≠ Json.obj [("raw_arguments", Json.str "")] := by
  constructor
  · rfl
  · intro h
    simp at h

/-- C7 (amended): at end of stream each assembled tool call is emitted
with `parseToolCallArguments` of its argument string; the empty string
yields `{}`, a non-empty string that fails to JSON-parse yields the
wrapper `{raw_arguments: <string>}`, and a string that parses yields the
parsed value unchanged. -/
theorem flush_args_spec (jsonParse : String → Option Json)
    (tcs : List AsmToolCall) (tc : AsmToolCall) (hmem : tc ∈ tcs) :
    EmitEv.toolCallComplete tc.id tc.name
        (parseToolCallArguments jsonParse tc.arguments) ∈
      flushToolCalls jsonParse tcs ∧
    (tc.arguments = "" →
      parseToolCallArguments jsonParse tc.arguments = Json.obj []) ∧
    (tc.arguments ≠ "" → jsonParse tc.arguments = none →
      parseToolCallArguments jsonParse tc.arguments =
        Json.obj [("raw_arguments", Json.str tc.arguments)]) ∧
    (∀ v, tc.arguments ≠ "" → jsonParse tc.arguments = some v →
      parseToolCallArguments jsonParse tc.arguments = v) := by
  refine ⟨List.mem_map_of_mem _ hmem, ?_, ?_, ?_⟩
  · intro he
    unfold parseToolCallArguments
    rw [if_pos he]
  · intro hne hp
    unfold parseToolCallArguments
    rw [if_neg hne, hp]
  · intro v hne hp
    unfold parseToolCallArguments
    rw [if_neg hne, hp]

/-- Witness for C7 (amended): a non-empty unparsable argument string is
wrapped. -/
theorem flush_args_spec_witness :
    parseToolCallArguments (fun _ => none) "not json" =
      Json.obj [("raw_arguments", Json.str "not json")] := by
  have h := flush_args_spec (fun _ => none) [⟨"call_1", "t", "not json"⟩]
    ⟨"call_1", "t", "not json"⟩ (by simp)
  exact h.2.2.1 (by decide) rfl

/-- Taking the last `n` of the last `m` entries (`n ≤ m`) is taking the
last `n`. -/
theorem lastN_lastN (h : List String) {m n : Nat} (hnm : n ≤ m) :
    lastN (lastN h m) n = lastN h n := by
  unfold lastN
  rw [List.length_drop, List.drop_drop]
  congr 1
  omega

/-- If the last four entries split into two equal halves and the last
six do as well, the last three entries are all equal. -/
theorem cycle23_forces_rep (h : List String) (h6 : 6 ≤ h.length)
    (hc2 : cycleAt h 2 = true) (hc3 : cycleAt h 3 = true) :
    allEqual (lastN h 3) = true := by
  obtain ⟨a, b, c, d, e, f, hEq⟩ :
      ∃ a b c d e f, lastN h 6 = [a, b, c, d, e, f] := by
    have h6len : (lastN h 6).length = 6 := by
      simp only [lastN, List.length_drop]
      omega
    rcases hsp : lastN h 6 with _ | ⟨a, _ | ⟨b, _ | ⟨c, _ | ⟨d, _ | ⟨e, _ | ⟨f, rest⟩⟩⟩⟩⟩⟩ <;>
      rw [hsp] at h6len <;> simp at h6len
    subst h6len
    exact ⟨a, b, c, d, e, f, rfl⟩
  have h4 : lastN h 4 = [c, d, e, f] := by
    rw [← lastN_lastN h (show 4 ≤ 6 by omega), hEq]
    rfl
  have h3 : lastN h 3 = [d, e, f] := by
    rw [← lastN_lastN h (show 3 ≤ 6 by omega), hEq]
    rfl
  unfold cycleAt at hc2 hc3
  simp only [show (2 : Nat) * 2 = 4 from rfl, show (3 : Nat) * 2 = 6 from rfl] at hc2 hc3
  rw [h4] at hc2
  rw [hEq] at hc3
  have hc2' : c = e ∧ d = f := by simpa using hc2
  have hc3' : a = d ∧ b = e ∧ c = f := by simpa using hc3
  obtain ⟨hce, hdf⟩ := hc2'
  obtain ⟨had, hbe, hcf⟩ := hc3'
  rw [h3]
  subst hce
  subst hdf
  subst had
  subst hbe
  subst hcf
  simp [allEqual]

/-- C4 counterexample: the history `A B A B` (four entries) ends in two
identical halves of length 2, yet `checkForLoop` returns `null` — the
cycle scan only runs once at least `maxCycleLength * 2 = 6` signatures
are recorded. -/
theorem abab_not_detected_cex : checkForLoop ["A", "B", "A", "B"] = none := by
  decide

/-- C4 (amended): three identical trailing signatures are always
reported; a trailing cycle of length 2 or 3 is reported PROVIDED the
history holds at least 6 signatures (and the exact-repeat check did not
fire first). -/
theorem checkForLoop_spec (h : List String) :
    (3 ≤ h.length → allEqual (lastN h 3) = true →
      checkForLoop h = some "Same action repeated 3 times") ∧
    (∀ len, (len = 2 ∨ len = 3) → 6 ≤ h.length →
      allEqual (lastN h 3) = false → cycleAt h len = true →
      checkForLoop h = some ("Detected repeating cycle of length " ++ toString len)) := by
  constructor
  · intro h3 hall
    unfold checkForLoop
    rw [if_neg (by omega : ¬h.length < 2), if_pos]
    rw [Bool.and_eq_true]
    exact ⟨by simpa [maxExactRepeats] using h3, by simpa [maxExactRepeats] using hall⟩
  · intro len hlen h6 hnall hcyc
    unfold checkForLoop
    rw [if_neg (by omega : ¬h.length < 2), if_neg, if_pos (by simpa [maxCycleLength] using h6)]
    · have hmin : min maxCycleLength (h.length / 2) = 3 := by
        simp only [maxCycleLength]
        omega
      rw [hmin]
      unfold findCycle
      rcases hlen with h2 | h3len
      · subst h2
        simp [List.findSome?, hcyc]
      · subst h3len
        have hc2 : cycleAt h 2 = false := by
          by_contra hc2t
          rw [Bool.not_eq_false] at hc2t
          exact absurd (cycle23_forces_rep h h6 hc2t hcyc) (by simp [hnall])
        simp [List.findSome?, hc2, hcyc]
    · rw [Bool.and_eq_true]
      rintro ⟨-, hall⟩
      simp only [maxExactRepeats] at hall
      rw [hall] at hnall
      exact Bool.true_eq_false.mp hnall

/-- Witness for C4 (amended): a triple repeat is reported, and
`A B A B` at the end of a six-entry history is reported as a cycle of
length 2. -/
theorem checkForLoop_spec_witness :
    checkForLoop ["A", "A", "A"] = some "Same action repeated 3 times" ∧
    checkForLoop ["C", "D", "A", "B", "A", "B"] =
      some "Detected repeating cycle of length 2" := by
  constructor
  · exact (checkForLoop_spec ["A", "A", "A"]).1 (by decide) (by decide)
  · have h := (checkForLoop_spec ["C", "D", "A", "B", "A", "B"]).2 2
      (Or.inl rfl) (by decide) (by decide) (by decide)
    rw [h]
    rfl

/-- The fallback `event.data.error || "Unknown"` is never empty. -/
theorem jsOrDefault_unknown_ne (e : Option String) :
    jsOrDefault e "Unknown" ≠ "" := by
  cases e with
  | none => simp [jsOrDefault]
  | some s =>
    simp only [jsOrDefault]
    by_cases hs : s = ""
    · rw [if_pos hs]
      decide
    · rw [if_neg hs]
      exact hs

/-- Invariant of the sub-agent event loop, starting from a state that
has no recorded error and termination "goal": the final state records a
truthy error exactly when it terminated with reason "error", its reason
is one of goal/timeout/error, and a timeout leaves the error unset. -/
theorem subLoop_invariant (deadline : Nat) (events : List (Nat × AgEv)) :
    ∀ st : SubState, st.errorMsg = none → st.terminateReason = "goal" →
      (jsTruthy (subLoop deadline events st).errorMsg = true ↔
        (subLoop deadline events st).terminateReason = "error") ∧
      ((subLoop deadline events st).terminateReason = "goal" ∨
       (subLoop deadline events st).terminateReason = "timeout" ∨
       (subLoop deadline events st).terminateReason = "error") ∧
      ((subLoop deadline events st).terminateReason = "timeout" →
        (subLoop deadline events st).errorMsg = none) := by
  induction events with
  | nil =>
    intro st he ht
    unfold subLoop
    rw [he, ht]
    exact ⟨by simp [jsTruthy], Or.inl rfl, fun _ => rfl⟩
  | cons ev rest ih =>
    intro st he ht
    obtain ⟨now, e⟩ := ev
    by_cases hd : deadline < now
    · simp only [subLoop, if_pos hd]
      refine ⟨?_, ?_, fun _ => he⟩
      · rw [he]
        simp [jsTruthy]
      · simp
    · cases e with
      | toolCallStart n =>
        simp only [subLoop, if_neg hd]
        exact ih _ he ht
      | textComplete c =>
        simp only [subLoop, if_neg hd]
        exact ih _ he ht
      | agentEnd r =>
        simp only [subLoop, if_neg hd]
        by_cases hf : st.finalResponse = none
        · rw [if_pos hf]
          exact ih _ he ht
        · rw [if_neg hf]
          exact ih _ he ht
      | agentError err =>
        simp only [subLoop, if_neg hd]
        simp [jsTruthy, bne_iff_ne, jsOrDefault_unknown_ne err]
      | otherEv =>
        simp only [subLoop, if_neg hd]
        exact ih _ he ht

/-- C2 counterexample: a sub-agent run that exceeds its wall-clock
deadline terminates with reason "timeout", yet `execute` returns a
SUCCESS result — `error` is only set on AGENT_ERROR or a thrown
exception, and the final `if (error)` therefore picks
`ToolResult.successResult`. -/
theorem subagent_timeout_success_cex :
    (subRunState (effTimeout (some 1)) 0
      (Except.ok [(2000, AgEv.textComplete "hi")])).terminateReason = "timeout" ∧
    (subagentExecute "s" "g" (some 1) 0
      (Except.ok [(2000, AgEv.textComplete "hi")])).success = true := by
  exact ⟨by decide, by decide⟩

/-- C2 (amended): for a non-empty goal the result is a success exactly
when no truthy error was recorded; the blob (placed in `output` on
success and in `error` on failure) always reports the termination
reason.  For a run that started (no initialization throw), success holds
iff the termination reason is not "error" — in particular a timeout
still yields `success = true`. -/
theorem subagent_result_spec (name goal : String) (timeoutSeconds : Option Nat)
    (now0 : Nat) (outcome : Except String (List (Nat × AgEv)))
    (hgoal : goal ≠ "") :
    ((subagentExecute name goal timeoutSeconds now0 outcome).success =
      !(jsTruthy (subRunState (effTimeout timeoutSeconds) now0 outcome).errorMsg)) ∧
    ((subagentExecute name goal timeoutSeconds now0 outcome).success = true →
      (subagentExecute name goal timeoutSeconds now0 outcome).output =
        subBlob name (subRunState (effTimeout timeoutSeconds) now0 outcome)) ∧
    ((subagentExecute name goal timeoutSeconds now0 outcome).success = false →
      (subagentExecute name goal timeoutSeconds now0 outcome).error =
        some (subBlob name (subRunState (effTimeout timeoutSeconds) now0 outcome))) ∧
    (∀ events, outcome = Except.ok events →
      (((subagentExecute name goal timeoutSeconds now0 outcome).success = true ↔
        (subRunState (effTimeout timeoutSeconds) now0 outcome).terminateReason ≠ "error") ∧
       ((subRunState (effTimeout timeoutSeconds) now0 outcome).terminateReason = "timeout" →
        (subagentExecute name goal timeoutSeconds now0 outcome).success = true))) := by
  unfold subagentExecute
  rw [if_neg hgoal]
  by_cases htr : jsTruthy (subRunState (effTimeout timeoutSeconds) now0 outcome).errorMsg = true
  · rw [if_pos htr]
    refine ⟨by rw [htr]; rfl, by intro h; simp [errorResult] at h, fun _ => rfl, ?_⟩
    intro events hev
    subst hev
    have hinv := subLoop_invariant (now0 + effTimeout timeoutSeconds * 1000) events
      initialSubState rfl rfl
    have hterm : (subRunState (effTimeout timeoutSeconds) now0
        (Except.ok events)).terminateReason = "error" := by
      exact (hinv.1).mp htr
    constructor
    · rw [hterm]
      constructor
      · intro h
        simp [errorResult] at h
      · intro h
        exact absurd rfl h
    · intro h
      rw [hterm] at h
      exact absurd h (by decide)
  · rw [if_neg htr]
    rw [Bool.not_eq_true] at htr
    refine ⟨by rw [htr]; rfl, fun _ => rfl, by intro h; simp [successResult] at h, ?_⟩
    intro events hev
    subst hev
    have hinv := subLoop_invariant (now0 + effTimeout timeoutSeconds * 1000) events
      initialSubState rfl rfl
    constructor
    · constructor
      · intro _
        intro hterm
        have : jsTruthy (subRunState (effTimeout timeoutSeconds) now0
            (Except.ok events)).errorMsg = true := (hinv.1).mpr hterm
        rw [htr] at this
        exact Bool.false_ne_true this
      · intro _
        rfl
    · intro _
      rfl

/-- Witness for C2 (amended): an AGENT_ERROR run yields a success-false
result. -/
theorem subagent_result_spec_witness :
    (subagentExecute "s" "g" (some 1) 0
      (Except.ok [(500, AgEv.agentError (some "boom"))])).success = false := by
  have h := subagent_result_spec "s" "g" (some 1) 0
    (Except.ok [(500, AgEv.agentError (some "boom"))]) (by decide)
  rw [h.1]
  decide

/-- Number of `afterTool` events in a trace. -/
def countAfter (tr : List HookEv) : Nat :=
  tr.countP (fun ev =>
    match ev with
    | .afterTool _ _ _ => true
    | _ => false)

/-- Does the trace contain a `beforeTool` event? -/
def hasBefore (tr : List HookEv) : Bool :=
  tr.any (fun ev =>
    match ev with
    | .beforeTool _ _ => true
    | _ => false)

/-- C6: in every `invoke` call, `afterTool` fires exactly once, as the
last event, carrying the final result; `beforeTool` fires iff lookup and
validation both succeeded; and when they do, the trace is `beforeTool`
followed (possibly after the execution step) by `afterTool`, in that
order, all carrying the same name and arguments. -/
theorem invoke_hook_discipline (getTool : String → Option RegTool)
    (name : String) (params : ToolParams) (cwd : String)
    (approval : Option ApprovalManager) (tr : List HookEv) (res : ToolResult)
    (heq : invoke getTool name params cwd approval = (tr, res)) :
    countAfter tr = 1 ∧
    tr.getLast? = some (.afterTool name params res) ∧
    (hasBefore tr = true ↔
      ∃ tool, getTool name = some tool ∧ tool.validateParams params = []) ∧
    (∀ tool, getTool name = some tool → tool.validateParams params = [] →
      tr.head? = some (.beforeTool name params) ∧
      (tr = [.beforeTool name params, .afterTool name params res] ∨
       tr = [.beforeTool name params, .execStep name,
             .afterTool name params res])) := by
  unfold invoke at heq
  cases hg : getTool name with
  | none =>
    rw [hg] at heq
    injection heq with htr hres
    subst htr
    subst hres
    refine ⟨rfl, rfl, by simp [hasBefore, hg], ?_⟩
    intro tool hg' _
    exact Option.noConfusion hg'
  | some tool =>
    rw [hg] at heq
    simp only [] at heq
    by_cases hv : (tool.validateParams params).isEmpty = false
    · rw [if_pos hv] at heq
      injection heq with htr hres
      subst htr
      subst hres
      have hvne : tool.validateParams params ≠ [] := by
        intro hnil
        rw [hnil] at hv
        simp at hv
      refine ⟨rfl, rfl, ?_, ?_⟩
      · simp only [hasBefore]
        constructor
        · intro h
          simp at h
        · rintro ⟨tool', hg', hval'⟩
          injection hg' with ht'
          subst ht'
          exact absurd hval' hvne
      · intro tool' hg' hval'
        injection hg' with ht'
        subst ht'
        exact absurd hval' hvne
    · rw [if_neg hv] at heq
      have hval : tool.validateParams params = [] := by
        rw [Bool.not_eq_false] at hv
        exact List.isEmpty_iff.mp hv
      cases hga : approvalGate tool name params cwd approval with
      | some r =>
        rw [hga] at heq
        injection heq with htr hres
        subst htr
        subst hres
        refine ⟨rfl, rfl, ?_, ?_⟩
        · exact ⟨fun _ => ⟨tool, rfl, hval⟩, fun _ => rfl⟩
        · intro tool' _ _
          exact ⟨rfl, Or.inl rfl⟩
      | none =>
        rw [hga] at heq
        cases hex : tool.execute params cwd with
        | ok r =>
          rw [hex] at heq
          injection heq with htr hres
          subst htr
          subst hres
          refine ⟨rfl, rfl, ?_, ?_⟩
          · exact ⟨fun _ => ⟨tool, rfl, hval⟩, fun _ => rfl⟩
          · intro tool' _ _
            exact ⟨rfl, Or.inr rfl⟩
        | error e =>
          rw [hex] at heq
          injection heq with htr hres
          subst htr
          subst hres
          refine ⟨rfl, rfl, ?_, ?_⟩
          · exact ⟨fun _ => ⟨tool, rfl, hval⟩, fun _ => rfl⟩
          · intro tool' _ _
            exact ⟨rfl, Or.inr rfl⟩

/-- A minimal registered tool for concrete runs: no validation errors,
not mutating, no confirmation, executes successfully. -/
def demoTool : RegTool :=
  ⟨fun _ => [], fun _ => false, fun _ _ => none, fun _ _ => .ok (successResult "ok")⟩

/-- A one-tool registry lookup holding `demoTool` under the name "t". -/
def demoGet : String → Option RegTool :=
  fun n => if n = "t" then some demoTool else none

/-- Witness for C6 at the concrete one-tool registry. -/
theorem invoke_hook_discipline_witness :
    countAfter (invoke demoGet "t" [] "/" none).1 = 1 ∧
    hasBefore (invoke demoGet "t" [] "/" none).1 = true := by
  have h := invoke_hook_discipline demoGet "t" [] "/" none
    (invoke demoGet "t" [] "/" none).1 (invoke demoGet "t" [] "/" none).2 rfl
  exact ⟨h.1, h.2.2.1.mpr ⟨demoTool, rfl, rfl⟩⟩

/-- Stream events alone contribute no delays. -/
theorem delaysOf_emit_append (l : List SEv) (rest : List Step) :
    delaysOf (l.map Step.emit ++ rest) = delaysOf rest := by
  induction l with
  | nil => rfl
  | cons e l ih => simp [delaysOf, ih]

/-- Error-free stream events contribute no ERROR count. -/
theorem errCount_emit_append (l : List SEv)
    (h : l.all (fun e => !isErrEv e) = true) (rest : List Step) :
    errCount (l.map Step.emit ++ rest) = errCount rest := by
  induction l with
  | nil => rfl
  | cons e l ih =>
    rw [List.all_cons, Bool.and_eq_true] at h
    have he : isErrEv e = false := by
      have h1 := h.1
      rwa [Bool.not_eq_true'] at h1
    have ih2 := ih h.2
    simp only [errCount, List.map_cons, List.cons_append, List.countP_cons] at ih2 ⊢
    simp [he, ih2]

/-- Error-free stream events are transparent for `errLastOnly`. -/
theorem errLastOnly_emit_append (l : List SEv)
    (h : l.all (fun e => !isErrEv e) = true) (rest : List Step) :
    errLastOnly (l.map Step.emit ++ rest) = errLastOnly rest := by
  induction l with
  | nil => rfl
  | cons e l ih =>
    rw [List.all_cons, Bool.and_eq_true] at h
    have ih2 := ih h.2
    cases e with
    | textDelta s => simpa [errLastOnly] using ih2
    | toolStart => simpa [errLastOnly] using ih2
    | toolDelta => simpa [errLastOnly] using ih2
    | toolComplete => simpa [errLastOnly] using ih2
    | msgComplete => simpa [errLastOnly] using ih2
    | errorEv m => simp [isErrEv] at h

/-- Generalized retry-loop invariant: starting at attempt `a` (with the
fuel the loop has left), the delays are `2^a, 2^(a+1), …` for at most
`maxRetries - a` retries, at most one ERROR event is produced, nothing
follows an ERROR event, and an ERROR is produced exactly when the
attempts from `a` on end in a terminal failure. -/
theorem chatLoop_spec (attempts : Nat → Attempt)
    (hclean : ∀ n, n ≤ maxRetries → noErrEvents (attempts n) = true) :
    ∀ fuel a, a + fuel = maxRetries + 1 →
      (∃ r, r ≤ maxRetries - a ∧
        delaysOf (chatLoop attempts fuel a) =
          (List.range' a r).map (fun i => 2 ^ i)) ∧
      errCount (chatLoop attempts fuel a) ≤ 1 ∧
      errLastOnly (chatLoop attempts fuel a) = true ∧
      ((∃ k, a ≤ k ∧ k ≤ maxRetries ∧
        (∀ i, a ≤ i → i < k →
          ∃ p e, attempts i = .fail p e ∧ retryableErr e = true) ∧
        (∃ p e, attempts k = .fail p e ∧
          (retryableErr e = false ∨ k = maxRetries))) ↔
       errCount (chatLoop attempts fuel a) = 1) := by
  intro fuel
  induction fuel with
  | zero =>
    intro a ha
    refine ⟨⟨0, by omega, rfl⟩, by simp [chatLoop, errCount], by simp [chatLoop, errLastOnly], ?_⟩
    constructor
    · rintro ⟨k, hak, hk3, -⟩
      omega
    · intro h
      simp [chatLoop, errCount] at h
  | succ fuel ih =>
    intro a ha
    have ha3 : a ≤ maxRetries := by omega
    cases hA : attempts a with
    | ok evs =>
      have hcl : evs.all (fun e => !isErrEv e) = true := by
        have := hclean a ha3
        rw [hA] at this
        simpa [noErrEvents] using this
      simp only [chatLoop, hA]
      have hd : delaysOf (evs.map Step.emit) = [] := by
        simpa using delaysOf_emit_append evs []
      have hec : errCount (evs.map Step.emit) = 0 := by
        simpa [errCount] using errCount_emit_append evs hcl []
      have hel : errLastOnly (evs.map Step.emit) = true := by
        simpa [errLastOnly] using errLastOnly_emit_append evs hcl []
      refine ⟨⟨0, by omega, by rw [hd]; rfl⟩, by rw [hec]; omega, hel, ?_⟩
      constructor
      · rintro ⟨k, hak, hk3, hprev, p, e, hke, -⟩
        rcases Nat.eq_or_lt_of_le hak with rfl | hlt
        · rw [hA] at hke
          exact Attempt.noConfusion hke
        · obtain ⟨p2, e2, hpe, -⟩ := hprev a (Nat.le_refl a) hlt
          rw [hA] at hpe
          exact Attempt.noConfusion hpe
      · intro h
        rw [hec] at h
        exact absurd h (by omega)
    | fail part e =>
      have hcl : part.all (fun ev => !isErrEv ev) = true := by
        have := hclean a ha3
        rw [hA] at this
        simpa [noErrEvents] using this
      by_cases hr : (retryableErr e && decide (a < maxRetries)) = true
      · have hrb : retryableErr e = true ∧ a < maxRetries := by
          rw [Bool.and_eq_true, decide_eq_true_eq] at hr
          exact hr
        simp only [chatLoop, hA, hr, if_true]
        obtain ⟨⟨r, hrle, hrd⟩, hec1, hel1, hiff⟩ := ih (a + 1) (by omega)
        have hdo : delaysOf (part.map Step.emit ++
            Step.delaySec (2 ^ a) :: chatLoop attempts fuel (a + 1)) =
            2 ^ a :: delaysOf (chatLoop attempts fuel (a + 1)) := by
          rw [delaysOf_emit_append]
          rfl
        have heo : errCount (part.map Step.emit ++
            Step.delaySec (2 ^ a) :: chatLoop attempts fuel (a + 1)) =
            errCount (chatLoop attempts fuel (a + 1)) := by
          rw [errCount_emit_append part hcl]
          simp [errCount, List.countP_cons]
        have hlo : errLastOnly (part.map Step.emit ++
            Step.delaySec (2 ^ a) :: chatLoop attempts fuel (a + 1)) =
            errLastOnly (chatLoop attempts fuel (a + 1)) := by
          rw [errLastOnly_emit_append part hcl]
          rfl
        refine ⟨⟨r + 1, by omega, ?_⟩, by rw [heo]; exact hec1, by rw [hlo]; exact hel1, ?_⟩
        · rw [hdo, hrd, List.range'_succ, List.map_cons]
        · rw [heo]
          rw [← hiff]
          constructor
          · rintro ⟨k, hak, hk3, hprev, hterm⟩
            rcases Nat.eq_or_lt_of_le hak with rfl | hlt
            · obtain ⟨p2, e2, hke, hbad⟩ := hterm
              rw [hA] at hke
              injection hke with hp2 he2
              subst hp2
              subst he2
              rcases hbad with hbad | hbad
              · rw [hrb.1] at hbad
                exact absurd hbad (by simp)
              · omega
            · exact ⟨k, by omega, hk3, fun i hi1 hi2 => hprev i (by omega) hi2, hterm⟩
          · rintro ⟨k, hak, hk3, hprev, hterm⟩
            refine ⟨k, by omega, hk3, ?_, hterm⟩
            intro i hi1 hi2
            rcases Nat.eq_or_lt_of_le hi1 with rfl | hlt
            · exact ⟨part, e, hA, hrb.1⟩
            · exact hprev i (by omega) hi2
      · simp only [chatLoop, hA]
        rw [if_neg hr]
        have hrb : retryableErr e = false ∨ a = maxRetries := by
          cases hbe : retryableErr e with
          | false => exact Or.inl rfl
          | true =>
            right
            have hna : ¬(a < maxRetries) := by
              intro hlt
              apply hr
              rw [hbe, decide_eq_true hlt]
              rfl
            omega
        have hdo : delaysOf (part.map Step.emit ++
            [Step.emit (SEv.errorEv ("API error: " ++ e.msg))]) = [] := by
          rw [delaysOf_emit_append]
          rfl
        have heo : errCount (part.map Step.emit ++
            [Step.emit (SEv.errorEv ("API error: " ++ e.msg))]) = 1 := by
          rw [errCount_emit_append part hcl]
          rfl
        have hlo : errLastOnly (part.map Step.emit ++
            [Step.emit (SEv.errorEv ("API error: " ++ e.msg))]) = true := by
          rw [errLastOnly_emit_append part hcl]
          rfl
        refine ⟨⟨0, by omega, by rw [hdo]; rfl⟩, by rw [heo], hlo, ?_⟩
        rw [heo]
        constructor
        · intro _
          rfl
        · intro _
          exact ⟨a, Nat.le_refl a, ha3,
            fun i hi1 hi2 => absurd (Nat.lt_of_le_of_lt hi1 hi2) (by omega),
            ⟨part, e, hA, hrb⟩⟩

/-- C8: `chatCompletion` retries at most 3 times with delays
`1s, 2s, 4s` before the retried attempts; at most one ERROR event is
ever yielded, nothing is yielded after it, and exactly one ERROR event
is yielded precisely on a terminal failure (a non-retryable error or
exhaustion of the 3 retries). -/
theorem chatCompletion_retry_spec (attempts : Nat → Attempt)
    (hclean : ∀ n, n ≤ maxRetries → noErrEvents (attempts n) = true) :
    (∃ r, r ≤ maxRetries ∧
      delaysOf (chatCompletion attempts) =
        (List.range r).map (fun i => 2 ^ i)) ∧
    errCount (chatCompletion attempts) ≤ 1 ∧
    errLastOnly (chatCompletion attempts) = true ∧
    ((∃ k, terminalFailAt attempts k) ↔
      errCount (chatCompletion attempts) = 1) := by
  obtain ⟨⟨r, hrle, hrd⟩, hec, hel, hiff⟩ :=
    chatLoop_spec attempts hclean (maxRetries + 1) 0 rfl
  unfold chatCompletion
  refine ⟨⟨r, by omega, ?_⟩, hec, hel, ?_⟩
  · rw [hrd, List.range_eq_range']
  · rw [← hiff]
    unfold terminalFailAt
    constructor
    · rintro ⟨k, hk3, hprev, hterm⟩
      exact ⟨k, Nat.zero_le k, hk3, fun i _ hik => hprev i hik, hterm⟩
    · rintro ⟨k, _, hk3, hprev, hterm⟩
      exact ⟨k, hk3, fun i hik => hprev i (Nat.zero_le i) hik, hterm⟩

/-- Witness for C8: four consecutive rate-limit failures exhaust the
retries, producing delays 1s, 2s, 4s and exactly one ERROR event. -/
theorem chatCompletion_retry_spec_witness :
    errCount (chatCompletion (fun _ => Attempt.fail [] ⟨some 429, none, "rl"⟩)) = 1 ∧
    delaysOf (chatCompletion (fun _ => Attempt.fail [] ⟨some 429, none, "rl"⟩)) =
      [1, 2, 4] := by
  have h := chatCompletion_retry_spec (fun _ => Attempt.fail [] ⟨some 429, none, "rl"⟩)
    (fun n _ => rfl)
  constructor
  · exact h.2.2.2.mp ⟨3, by decide, fun i _ => ⟨[], ⟨some 429, none, "rl"⟩, rfl, rfl⟩,
      ⟨[], ⟨some 429, none, "rl"⟩, rfl, Or.inr rfl⟩⟩
  · decide

/-- Mapping over `range (n+1)` splits off position 0. -/
theorem range_succ_map {α : Type} (f : Nat → α) (n : Nat) :
    (List.range (n + 1)).map f = f 0 :: (List.range n).map (fun p => f (p + 1)) := by
  rw [List.range_succ_eq_map, List.map_cons, List.map_map]
  rfl

/-- Reading every position of a list back off by index is the list. -/
theorem range_map_getD {α : Type} [Inhabited α] (l : List α) :
    (List.range l.length).map (fun p => l.getD p default) = l := by
  induction l with
  | nil => rfl
  | cons x xs ih =>
    rw [List.length_cons, range_succ_map]
    simp only [List.getD_cons_zero, List.getD_cons_succ]
    rw [ih]

/-- Summing a constant zero map gives zero. -/
theorem sum_map_zero {α : Type} (l : List α) :
    (l.map (fun _ => (0 : Nat))).sum = 0 := by
  induction l with
  | nil => rfl
  | cons x xs ih => simp [ih]

/-- The candidate predicate at position 0 of a cons. -/
theorem specCand_cons_zero (m : MessageItem) (rest : List MessageItem) (t : Nat) :
    specCand (m :: rest) t 0 =
      (isCountedToolMsg m && !m.prunedAt &&
        decide (PRUNE_PROTECT_TOKENS < t + msgTokens m)) := by
  unfold specCand scanRegionOk accumTokens
  cases hc : isCountedToolMsg m with
  | false => simp [hc]
  | true =>
    cases hp : m.prunedAt with
    | false => simp [hc, hp, List.take_succ_cons]
    | true => simp [hc, hp, List.take_succ_cons]

/-- A previously pruned tool message at the head poisons every position:
the scan stopped immediately. -/
theorem specCand_cons_pruned (m : MessageItem) (rest : List MessageItem)
    (t : Nat) (hc : isCountedToolMsg m = true) (hp : m.prunedAt = true)
    (p : Nat) : specCand (m :: rest) t p = false := by
  unfold specCand scanRegionOk
  cases p with
  | zero => simp [hc, hp, List.take_succ_cons]
  | succ p => simp [hc, hp, List.take_succ_cons]

/-- Stepping over an unpruned tool message adds its tokens to the
accumulator. -/
theorem specCand_cons_succ_counted (m : MessageItem) (rest : List MessageItem)
    (hc : isCountedToolMsg m = true) (hp : m.prunedAt = false)
    (t p : Nat) :
    specCand (m :: rest) t (p + 1) = specCand rest (t + msgTokens m) p := by
  unfold specCand scanRegionOk accumTokens
  simp [hc, hp, List.take_succ_cons, List.getD_cons_succ, Nat.add_assoc]

/-- Stepping over a non-tool message changes nothing. -/
theorem specCand_cons_succ_uncounted (m : MessageItem) (rest : List MessageItem)
    (hc : isCountedToolMsg m = false) (t p : Nat) :
    specCand (m :: rest) t (p + 1) = specCand rest t p := by
  unfold specCand scanRegionOk accumTokens
  simp [hc, List.take_succ_cons, List.getD_cons_succ]

/-- A non-tool message is never a candidate. -/
theorem specCand_cons_zero_uncounted (m : MessageItem) (rest : List MessageItem)
    (hc : isCountedToolMsg m = false) (t : Nat) :
    specCand (m :: rest) t 0 = false := by
  unfold specCand
  simp [hc]

/-- The scan of `pruneToolOutputs` computes exactly the declarative
description: the pruned tokens are the tokens of the candidates, the pruned
count is the number of candidates, and the output list is the input with
exactly the candidates replaced by their pruned forms. -/
theorem pruneScan_spec (r : List MessageItem) :
    ∀ t : Nat, pruneScan r t = (specTokens r t, specCount r t, specMap r t) := by
  induction r with
  | nil =>
    intro t
    simp [pruneScan, specTokens, specCount, specMap]
  | cons m rest ih =>
    intro t
    by_cases hc : isCountedToolMsg m = true
    · by_cases hp : m.prunedAt = true
      · -- the scan stops: nothing is a candidate
        have hTok : specTokens (m :: rest) t = 0 := by
          unfold specTokens
          simp only [specCand_cons_pruned m rest t hc hp, Bool.false_eq_true,
            if_false]
          exact sum_map_zero _
        have hCnt : specCount (m :: rest) t = 0 := by
          unfold specCount
          simp only [specCand_cons_pruned m rest t hc hp, Bool.false_eq_true,
            if_false]
          exact sum_map_zero _
        have hMap : specMap (m :: rest) t = m :: rest := by
          unfold specMap
          simp only [specCand_cons_pruned m rest t hc hp, Bool.false_eq_true,
            if_false]
          exact range_map_getD (m :: rest)
        rw [hTok, hCnt, hMap]
        simp only [pruneScan, hc, hp]
        simp
      · -- an unpruned tool message: it accumulates, and may be a candidate
        rw [Bool.not_eq_true] at hp
        have hz : specCand (m :: rest) t 0 =
            decide (PRUNE_PROTECT_TOKENS < t + msgTokens m) := by
          rw [specCand_cons_zero, hc, hp]
          simp
        have hTok : specTokens (m :: rest) t =
            (if specCand (m :: rest) t 0 then msgTokens m else 0) +
              specTokens rest (t + msgTokens m) := by
          unfold specTokens
          rw [List.length_cons, range_succ_map, List.sum_cons]
          simp only [specCand_cons_succ_counted m rest hc hp,
            List.getD_cons_succ, List.getD_cons_zero]
        have hCnt : specCount (m :: rest) t =
            (if specCand (m :: rest) t 0 then 1 else 0) +
              specCount rest (t + msgTokens m) := by
          unfold specCount
          rw [List.length_cons, range_succ_map, List.sum_cons]
          simp only [specCand_cons_succ_counted m rest hc hp]
        have hMap : specMap (m :: rest) t =
            (if specCand (m :: rest) t 0 then pruneMsg m else m) ::
              specMap rest (t + msgTokens m) := by
          unfold specMap
          rw [List.length_cons, range_succ_map]
          simp only [specCand_cons_succ_counted m rest hc hp,
            List.getD_cons_succ, List.getD_cons_zero]
        rw [hTok, hCnt, hMap, hz]
        simp only [pruneScan, hc, hp]
        rw [ih (t + msgTokens m)]
        by_cases hgt : PRUNE_PROTECT_TOKENS < t + msgTokens m
        · simp [hgt, Nat.add_comm]
        · simp [hgt]
    · -- a non-tool message: transparent for the scan
      rw [Bool.not_eq_true] at hc
      have hz := specCand_cons_zero_uncounted m rest hc t
      have hTok : specTokens (m :: rest) t = specTokens rest t := by
        unfold specTokens
        rw [List.length_cons, range_succ_map, List.sum_cons]
        simp only [specCand_cons_succ_uncounted m rest hc,
          List.getD_cons_succ, List.getD_cons_zero, hz]
        simp
      have hCnt : specCount (m :: rest) t = specCount rest t := by
        unfold specCount
        rw [List.length_cons, range_succ_map, List.sum_cons]
        simp only [specCand_cons_succ_uncounted m rest hc, hz]
        simp
      have hMap : specMap (m :: rest) t = m :: specMap rest t := by
        unfold specMap
        rw [List.length_cons, range_succ_map]
        simp only [specCand_cons_succ_uncounted m rest hc,
          List.getD_cons_succ, List.getD_cons_zero, hz]
        simp
      rw [hTok, hCnt, hMap]
      simp only [pruneScan, hc]
      rw [ih t]
      simp

/-- C5 (amended): on a message list with at least two user messages,
`pruneToolOutputs` prunes exactly the candidate tool messages — those
scanned newest-first before any previously pruned tool message whose
accumulated tokens exceed the protected 40,000-token tail — replacing
their content with "[Old tool result content cleared]", recounting
their tokens and stamping `prunedAt`, and leaving every other message
unchanged; and it does so iff the candidates total at least 20,000
tokens, returning the number of pruned messages (otherwise 0 and an
unchanged list). -/
theorem pruneToolOutputs_spec (msgs : List MessageItem)
    (husers : 2 ≤ userMessageCount msgs) :
    pruneToolOutputs msgs =
      (if PRUNE_MINIMUM_TOKENS ≤ specTokens msgs.reverse 0 then
        (specCount msgs.reverse 0, (specMap msgs.reverse 0).reverse)
      else (0, msgs)) := by
  unfold pruneToolOutputs
  rw [if_neg (by omega : ¬userMessageCount msgs < 2)]
  rw [pruneScan_spec msgs.reverse 0]
  by_cases hmin : PRUNE_MINIMUM_TOKENS ≤ specTokens msgs.reverse 0
  · rw [if_pos hmin, if_neg (by omega : ¬specTokens msgs.reverse 0 < PRUNE_MINIMUM_TOKENS)]
  · rw [if_neg hmin, if_pos (by omega : specTokens msgs.reverse 0 < PRUNE_MINIMUM_TOKENS)]

/-- A 10,000-token tool-result message with call id `i`. -/
def toolMsg10k (i : String) : MessageItem :=
  ⟨"tool", "data", some i, [], some 10000, false⟩

/-- Seven 10,000-token tool messages and no user message. -/
def sevenToolMsgs : List MessageItem :=
  [toolMsg10k "1", toolMsg10k "2", toolMsg10k "3", toolMsg10k "4",
   toolMsg10k "5", toolMsg10k "6", toolMsg10k "7"]

/-- The pruned form of `toolMsg10k i`. -/
def prunedTool10k (i : String) : MessageItem :=
  ⟨"tool", prunedContent, some i, [], some 8, true⟩

/-- C5 counterexample: on a message list with no user messages the
candidates described by the claim total 30,000 tokens (three 10,000-token
messages beyond the 40,000-token tail, ≥ the 20,000 minimum), so the
claim demands that exactly those three be cleared — but
`pruneToolOutputs` returns 0 and leaves the list unchanged, because of a
guard the claim omits: fewer than two `user` messages disable pruning
entirely. -/
theorem prune_no_user_guard_cex :
    userMessageCount sevenToolMsgs = 0 ∧
    specTokens sevenToolMsgs.reverse 0 = 30000 ∧
    specCount sevenToolMsgs.reverse 0 = 3 ∧
    pruneToolOutputs sevenToolMsgs = (0, sevenToolMsgs) := by
  exact ⟨by decide, by decide, by decide, by decide⟩

/-- The example transcript for the C5 witness: two user messages then
seven 10,000-token tool results. -/
def exMsgs : List MessageItem :=
  ⟨"user", "hi", none, [], some 1, false⟩ ::
  ⟨"user", "go", none, [], some 1, false⟩ :: sevenToolMsgs

/-- Witness for C5 (amended): on the example transcript pruning clears
exactly the three oldest tool results (the ones beyond the 40,000-token
tail) and reports 3. -/
theorem pruneToolOutputs_spec_witness :
    pruneToolOutputs exMsgs =
      (3, [⟨"user", "hi", none, [], some 1, false⟩,
           ⟨"user", "go", none, [], some 1, false⟩,
           prunedTool10k "1", prunedTool10k "2", prunedTool10k "3",
           toolMsg10k "4", toolMsg10k "5", toolMsg10k "6", toolMsg10k "7"]) := by
  have h := pruneToolOutputs_spec exMsgs (by decide)
  rw [h]
  decide
